import Mathlib

/-!
Verification development for the NX-ScreenUploader sysmodule.

The C++ sources are shallowly embedded: paths (`std::string` values) are
lists of characters compared with the lexicographic order (the order used
by `operator<`/`operator>` on `std::string`), the album directory tree is
an explicit `Store` value, and the upload queue is a record mirroring the
circular-buffer globals.  Fallible operations return `Except`.
-/

namespace NX

/-- A path or path component: the character sequence of a `std::string`.
`List Char` carries the lexicographic order, matching `std::string`
comparison for the ASCII paths this program manipulates. -/
abbrev Path := List Char

/-- `isDigitsOnly` from `album.cpp`: every character is between '0' and '9'. -/
def isDigitsOnly (s : Path) : Bool :=
  s.all (fun c => decide ('0' ≤ c ∧ c ≤ '9'))

/-- `ALBUM_PATH` from `album.cpp` (the mounted image file system root). -/
def ALBUM_PATH : Path := ("img:/").toList

/-- A day directory: its name and the regular files it contains. -/
structure DayDir where
  name : Path
  files : List Path
deriving DecidableEq

/-- A month directory: its name and its day subdirectories. -/
structure MonthDir where
  name : Path
  days : List DayDir
deriving DecidableEq

/-- A year directory: its name and its month subdirectories. -/
structure YearDir where
  name : Path
  months : List MonthDir
deriving DecidableEq

/-- The album tree under `img:/`: the year directories. -/
structure Store where
  years : List YearDir
deriving DecidableEq

/-- The full path of a file reached through year/month/day directories,
as built by `std::filesystem::path::operator/` starting from `img:/`. -/
def fullPath (y m d f : Path) : Path :=
  ALBUM_PATH ++ y ++ '/' :: (m ++ '/' :: (d ++ '/' :: f))

/-- The shape filter applied to directory names in `album.cpp`:
expected length and digits only. -/
def wfDir (expectedLen : Nat) (nm : Path) : Bool :=
  (nm.length == expectedLen) && isDigitsOnly nm

/-- The well-formedness predicate (Prop form of `wfDir`). -/
def wfName (expectedLen : Nat) (nm : Path) : Prop :=
  nm.length = expectedLen ∧ isDigitsOnly nm = true

theorem wfDir_eq_true_iff {len : Nat} {nm : Path} :
    wfDir len nm = true ↔ wfName len nm := by
  simp [wfDir, wfName]

/-! ### Lexicographic order facts used throughout

On `List Char`, `<` is `List.Lex (· < ·)` (the Mathlib instance), which is
exactly the `std::string` comparison the C++ code performs. -/

theorem path_lt_def {u v : Path} : u < v ↔ List.Lex (· < ·) u v := Iff.rfl

theorem path_cons_lt_cons_iff {x y : Char} {u v : Path} :
    (x :: u : Path) < (y :: v) ↔ x < y ∨ (x = y ∧ u < v) := by
  constructor
  · intro h
    cases h with
    | cons h => exact Or.inr ⟨rfl, h⟩
    | rel h => exact Or.inl h
  · intro h
    rcases h with h | ⟨rfl, h⟩
    · exact List.Lex.rel h
    · exact List.Lex.cons h

theorem path_append_lt_left_iff (p : Path) {u v : Path} :
    p ++ u < p ++ v ↔ u < v := by
  induction p with
  | nil => simp
  | cons c p ih =>
      simpa [path_cons_lt_cons_iff] using ih

theorem path_append_lt_iff_of_length_eq {a b : Path} (h : a.length = b.length)
    (u v : Path) :
    a ++ u < b ++ v ↔ a < b ∨ (a = b ∧ u < v) := by
  induction a generalizing b with
  | nil =>
      cases b with
      | nil => simp [lt_irrefl]
      | cons y bs => simp at h
  | cons x as ih =>
      cases b with
      | nil => simp at h
      | cons y bs =>
          simp only [List.length_cons, Nat.succ_inj] at h
          by_cases hxy : x = y
          · subst hxy
            simp only [List.cons_append, path_cons_lt_cons_iff, ih h,
              List.cons.injEq, true_and, eq_self_iff_true, lt_irrefl, false_or]
          · simp only [List.cons_append, path_cons_lt_cons_iff,
              List.cons.injEq]
            tauto

theorem path_nil_lt_iff {l : Path} : ([] : Path) < l ↔ l ≠ [] := by
  cases l with
  | nil => simp [lt_irrefl]
  | cons c cs =>
      simp only [ne_eq, List.cons_ne_nil, not_false_eq_true, iff_true]
      exact List.nil_lt_cons c cs

/-! ### `album.cpp`: locating the newest item and the items newer than a watermark -/

/-- The loop body state of `findMaxDir`/`findMaxFileInDir`: the greatest
qualifying name seen so far (`max_filename`, initially the empty string)
and the corresponding entry (`max_path`, initially empty). `keep` is the
qualification test (`is_directory` plus the shape filter, or
`is_regular_file`). -/
def findMaxAux (nameOf : α → Path) (keep : α → Bool) :
    List α → Path × Option α → Path × Option α
  | [], st => st
  | e :: rest, st =>
      if keep e ∧ st.1 < nameOf e then
        findMaxAux nameOf keep rest (nameOf e, some e)
      else
        findMaxAux nameOf keep rest st

/-- `findMaxDir<ExpectedLen>` from `album.cpp`: the subdirectory with the
greatest name among those of the expected digits-only shape. -/
def findMaxDir (nameOf : α → Path) (expectedLen : Nat) (entries : List α) :
    Option α :=
  (findMaxAux nameOf (fun e => wfDir expectedLen (nameOf e)) entries
    ([], none)).2

/-- `findMaxFileInDir` from `album.cpp`: the full path of the regular file
with the greatest filename in a day directory. -/
def findMaxFileInDir (dir : Path) (files : List Path) : Option Path :=
  ((findMaxAux id (fun _ => true) files ([], none)).2).map
    (fun f => dir ++ '/' :: f)

/-- `getLastAlbumItem` from `album.cpp`: descend max year → max month →
max day → max file, failing at the first empty level with a message that
names the level and the parent path. -/
def getLastAlbumItem (s : Store) : Except Path Path :=
  match findMaxDir YearDir.name 4 s.years with
  | none => Except.error (("No valid year directories in img:/").toList)
  | some yd =>
      let yearPath := ALBUM_PATH ++ yd.name
      match findMaxDir MonthDir.name 2 yd.months with
      | none =>
          Except.error (("No valid month directories in ").toList ++ yearPath)
      | some md =>
          let monthPath := yearPath ++ '/' :: md.name
          match findMaxDir DayDir.name 2 md.days with
          | none =>
              Except.error (("No valid day directories in ").toList ++
                monthPath)
          | some dd =>
              let dayPath := monthPath ++ '/' :: dd.name
              match findMaxFileInDir dayPath dd.files with
              | none =>
                  Except.error (("No files found in ").toList ++ dayPath)
              | some fp => Except.ok fp

/-- `collectFilesNewerThan` from `album.cpp`: the full paths of the files
of a directory that compare strictly greater than `lastPath`. -/
def collectFilesNewerThan (dir : Path) (lastPath : Path)
    (files : List Path) : List Path :=
  files.filterMap fun f =>
    let fp := dir ++ '/' :: f
    if lastPath < fp then some fp else none

/-- `findDirsGreaterOrEqual<ExpectedLen>` from `album.cpp`: the
subdirectories of the expected digits-only shape whose name is
`>= minDirName`. -/
def findDirsGE (nameOf : α → Path) (expectedLen : Nat) (minDirName : Path)
    (entries : List α) : List α :=
  entries.filter fun e =>
    wfDir expectedLen (nameOf e) && decide (minDirName ≤ nameOf e)

/-- `collectFromDayDir` from `album.cpp`. -/
def collectFromDayDir (dayDirPath : Path) (lastItem : Path) (d : DayDir) :
    List Path :=
  collectFilesNewerThan dayDirPath lastItem d.files

/-- `collectFromMonthDir` from `album.cpp`: collect from each qualifying
day directory, applying the watermark only inside the minimum day when
this is the watermark month. -/
def collectFromMonthDir (monthDirPath : Path) (lastItem : Path)
    (minDay : Path) (isMinMonth : Bool) (m : MonthDir) : List Path :=
  let days := findDirsGE DayDir.name 2 (if isMinMonth then minDay else [])
    m.days
  days.flatMap fun dd =>
    if isMinMonth = true ∧ dd.name = minDay then
      collectFromDayDir (monthDirPath ++ '/' :: dd.name) lastItem dd
    else
      collectFilesNewerThan (monthDirPath ++ '/' :: dd.name) [] dd.files

/-- `collectFromYearDir` from `album.cpp`: collect from each qualifying
month directory, applying the month/day watermark only inside the minimum
month when this is the watermark year. -/
def collectFromYearDir (yearDirPath : Path) (lastItem : Path)
    (minMonth : Path) (minDay : Path) (isMinYear : Bool) (y : YearDir) :
    List Path :=
  let months := findDirsGE MonthDir.name 2
    (if isMinYear then minMonth else []) y.months
  months.flatMap fun mm =>
    if isMinYear = true ∧ mm.name = minMonth then
      collectFromMonthDir (yearDirPath ++ '/' :: mm.name) lastItem minDay
        true mm
    else
      collectFromMonthDir (yearDirPath ++ '/' :: mm.name) lastItem []
        false mm

/-- The error payload of the watermark-format check in `getNewAlbumItems`. -/
def INVALID_PATH_MSG : Path := ("Invalid path format").toList

/-- `getNewAlbumItems` from `album.cpp`: with an empty watermark, return
just the newest item (or nothing); otherwise parse the year/month/day
components out of the watermark, collect every file newer than it, and
sort the result ascending (`std::ranges::sort`, modelled by insertion
sort, which produces the same sorted sequence). -/
def getNewAlbumItems (s : Store) (lastItem : Path) :
    Except Path (List Path) :=
  if lastItem = [] then
    match getLastAlbumItem s with
    | Except.ok p => Except.ok [p]
    | Except.error _ => Except.ok []
  else
    let pos0 : Nat := if lastItem.take 5 = ALBUM_PATH then 5 else 0
    if lastItem.length < pos0 + 4 then Except.error INVALID_PATH_MSG else
    let minYear := (lastItem.drop pos0).take 4
    let pos1 := pos0 + 5
    if lastItem.length < pos1 + 2 then Except.error INVALID_PATH_MSG else
    let minMonth := (lastItem.drop pos1).take 2
    let pos2 := pos1 + 3
    if lastItem.length < pos2 + 2 then Except.error INVALID_PATH_MSG else
    let minDay := (lastItem.drop pos2).take 2
    let years := findDirsGE YearDir.name 4 minYear s.years
    let newItems := years.flatMap fun yd =>
      if yd.name = minYear then
        collectFromYearDir (ALBUM_PATH ++ yd.name) lastItem minMonth minDay
          true yd
      else
        collectFromYearDir (ALBUM_PATH ++ yd.name) lastItem [] [] false yd
    Except.ok (List.insertionSort (fun a b => a ≤ b) newItems)

/-- A file reachable through well-formed year/month/day directories, with
its full path. -/
def ReachableWF (s : Store) (p : Path) : Prop :=
  ∃ yd ∈ s.years, wfName 4 yd.name ∧
    ∃ md ∈ yd.months, wfName 2 md.name ∧
      ∃ dd ∈ md.days, wfName 2 dd.name ∧
        ∃ f ∈ dd.files, p = fullPath yd.name md.name dd.name f

instance (s : Store) (p : Path) : Decidable (ReachableWF s p) := by
  unfold ReachableWF wfName
  infer_instance

/-! ### Membership characterizations of the collection pipeline -/

theorem mem_collectFilesNewerThan {dir last p : Path} {files : List Path} :
    p ∈ collectFilesNewerThan dir last files ↔
      ∃ f ∈ files, p = dir ++ '/' :: f ∧ last < p := by
  simp only [collectFilesNewerThan, List.mem_filterMap,
    Option.ite_none_right_eq_some, Option.some.injEq]
  constructor
  · rintro ⟨f, hf, hlt, rfl⟩
    exact ⟨f, hf, rfl, hlt⟩
  · rintro ⟨f, hf, rfl, hlt⟩
    exact ⟨f, hf, hlt, rfl⟩

theorem mem_findDirsGE {nameOf : α → Path} {len : Nat} {minN : Path}
    {l : List α} {e : α} :
    e ∈ findDirsGE nameOf len minN l ↔
      e ∈ l ∧ wfName len (nameOf e) ∧ minN ≤ nameOf e := by
  simp [findDirsGE, List.mem_filter, wfDir_eq_true_iff, and_assoc]

theorem mem_collectFromMonthDir_iff {mp w minDay p : Path} {b : Bool}
    {mm : MonthDir} :
    p ∈ collectFromMonthDir mp w minDay b mm ↔
      ∃ dd, dd ∈ mm.days ∧ wfName 2 dd.name ∧
        (if b then minDay else []) ≤ dd.name ∧
        p ∈ (if b = true ∧ dd.name = minDay
             then collectFilesNewerThan (mp ++ '/' :: dd.name) w dd.files
             else collectFilesNewerThan (mp ++ '/' :: dd.name) [] dd.files) := by
  unfold collectFromMonthDir collectFromDayDir
  rw [List.mem_flatMap]
  constructor
  · rintro ⟨dd, hdd, hp⟩
    obtain ⟨hmem, hwf, hge⟩ := mem_findDirsGE.mp hdd
    exact ⟨dd, hmem, hwf, hge, hp⟩
  · rintro ⟨dd, hmem, hwf, hge, hp⟩
    exact ⟨dd, mem_findDirsGE.mpr ⟨hmem, hwf, hge⟩, hp⟩

theorem mem_collectFromMonthDir_all {mp w p : Path} {mm : MonthDir} :
    p ∈ collectFromMonthDir mp w [] false mm ↔
      ∃ dd ∈ mm.days, wfName 2 dd.name ∧
        ∃ f ∈ dd.files, p = mp ++ '/' :: (dd.name ++ '/' :: f) := by
  rw [mem_collectFromMonthDir_iff]
  constructor
  · rintro ⟨dd, hmem, hwf, -, hp⟩
    rw [if_neg (by simp)] at hp
    obtain ⟨f, hf, hpeq, -⟩ := mem_collectFilesNewerThan.mp hp
    exact ⟨dd, hmem, hwf, f, hf, by simpa using hpeq⟩
  · rintro ⟨dd, hmem, hwf, f, hf, hpeq⟩
    refine ⟨dd, hmem, hwf, by simp, ?_⟩
    rw [if_neg (by simp)]
    refine mem_collectFilesNewerThan.mpr ⟨f, hf, by simpa using hpeq, ?_⟩
    rw [path_nil_lt_iff]
    subst hpeq
    simp

theorem mem_collectFromMonthDir_min {mp w d p : Path} {mm : MonthDir} :
    p ∈ collectFromMonthDir mp w d true mm ↔
      ∃ dd ∈ mm.days, wfName 2 dd.name ∧ d ≤ dd.name ∧
        ((dd.name = d ∧
            ∃ f ∈ dd.files, p = mp ++ '/' :: (dd.name ++ '/' :: f) ∧ w < p) ∨
         (dd.name ≠ d ∧
            ∃ f ∈ dd.files, p = mp ++ '/' :: (dd.name ++ '/' :: f))) := by
  rw [mem_collectFromMonthDir_iff]
  constructor
  · rintro ⟨dd, hmem, hwf, hge, hp⟩
    refine ⟨dd, hmem, hwf, by simpa using hge, ?_⟩
    by_cases heq : dd.name = d
    · rw [if_pos ⟨rfl, heq⟩] at hp
      obtain ⟨f, hf, hpeq, hlt⟩ := mem_collectFilesNewerThan.mp hp
      exact Or.inl ⟨heq, f, hf, by simpa using hpeq, hlt⟩
    · rw [if_neg (by simpa using heq)] at hp
      obtain ⟨f, hf, hpeq, -⟩ := mem_collectFilesNewerThan.mp hp
      exact Or.inr ⟨heq, f, hf, by simpa using hpeq⟩
  · rintro ⟨dd, hmem, hwf, hge, hcase⟩
    refine ⟨dd, hmem, hwf, by simpa using hge, ?_⟩
    rcases hcase with ⟨heq, f, hf, hpeq, hlt⟩ | ⟨hne, f, hf, hpeq⟩
    · rw [if_pos ⟨rfl, heq⟩]
      exact mem_collectFilesNewerThan.mpr ⟨f, hf, by simpa using hpeq, hlt⟩
    · rw [if_neg (by simpa using hne)]
      refine mem_collectFilesNewerThan.mpr ⟨f, hf, by simpa using hpeq, ?_⟩
      rw [path_nil_lt_iff]
      subst hpeq
      simp

theorem mem_collectFromYearDir_iff {yp w minMonth minDay p : Path} {b : Bool}
    {yy : YearDir} :
    p ∈ collectFromYearDir yp w minMonth minDay b yy ↔
      ∃ md, md ∈ yy.months ∧ wfName 2 md.name ∧
        (if b then minMonth else []) ≤ md.name ∧
        p ∈ (if b = true ∧ md.name = minMonth
             then collectFromMonthDir (yp ++ '/' :: md.name) w minDay true md
             else collectFromMonthDir (yp ++ '/' :: md.name) w [] false md) := by
  unfold collectFromYearDir
  rw [List.mem_flatMap]
  constructor
  · rintro ⟨md, hmd, hp⟩
    obtain ⟨hmem, hwf, hge⟩ := mem_findDirsGE.mp hmd
    exact ⟨md, hmem, hwf, hge, hp⟩
  · rintro ⟨md, hmem, hwf, hge, hp⟩
    exact ⟨md, mem_findDirsGE.mpr ⟨hmem, hwf, hge⟩, hp⟩

theorem mem_collectFromYearDir_all {yp w p : Path} {yy : YearDir} :
    p ∈ collectFromYearDir yp w [] [] false yy ↔
      ∃ md ∈ yy.months, wfName 2 md.name ∧
        ∃ dd ∈ md.days, wfName 2 dd.name ∧
          ∃ f ∈ dd.files,
            p = yp ++ '/' :: (md.name ++ '/' :: (dd.name ++ '/' :: f)) := by
  rw [mem_collectFromYearDir_iff]
  constructor
  · rintro ⟨md, hmem, hwf, -, hp⟩
    rw [if_neg (by simp)] at hp
    obtain ⟨dd, hdd, hwfd, f, hf, hpeq⟩ := mem_collectFromMonthDir_all.mp hp
    exact ⟨md, hmem, hwf, dd, hdd, hwfd, f, hf, by simpa using hpeq⟩
  · rintro ⟨md, hmem, hwf, dd, hdd, hwfd, f, hf, hpeq⟩
    refine ⟨md, hmem, hwf, by simp, ?_⟩
    rw [if_neg (by simp)]
    exact mem_collectFromMonthDir_all.mpr
      ⟨dd, hdd, hwfd, f, hf, by simpa using hpeq⟩

theorem mem_collectFromYearDir_min {yp w m d p : Path} {yy : YearDir} :
    p ∈ collectFromYearDir yp w m d true yy ↔
      ∃ md ∈ yy.months, wfName 2 md.name ∧ m ≤ md.name ∧
        ((md.name = m ∧
            p ∈ collectFromMonthDir (yp ++ '/' :: md.name) w d true md) ∨
         (md.name ≠ m ∧
            p ∈ collectFromMonthDir (yp ++ '/' :: md.name) w [] false md)) := by
  rw [mem_collectFromYearDir_iff]
  constructor
  · rintro ⟨md, hmem, hwf, hge, hp⟩
    refine ⟨md, hmem, hwf, by simpa using hge, ?_⟩
    by_cases heq : md.name = m
    · rw [if_pos ⟨rfl, heq⟩] at hp
      exact Or.inl ⟨heq, hp⟩
    · rw [if_neg (by simpa using heq)] at hp
      exact Or.inr ⟨heq, hp⟩
  · rintro ⟨md, hmem, hwf, hge, hcase⟩
    refine ⟨md, hmem, hwf, by simpa using hge, ?_⟩
    rcases hcase with ⟨heq, hp⟩ | ⟨hne, hp⟩
    · rw [if_pos ⟨rfl, heq⟩]
      exact hp
    · rw [if_neg (by simpa using hne)]
      exact hp

/-! ### Comparing full paths component-wise -/

theorem fullPath_lt_fullPath_iff {y y' m m' d d' f f' : Path}
    (hy : y.length = y'.length) (hm : m.length = m'.length)
    (hd : d.length = d'.length) :
    fullPath y m d f < fullPath y' m' d' f' ↔
      y < y' ∨ (y = y' ∧ (m < m' ∨ (m = m' ∧ (d < d' ∨ (d = d' ∧ f < f'))))) := by
  unfold fullPath
  rw [List.append_assoc, List.append_assoc, path_append_lt_left_iff,
    path_append_lt_iff_of_length_eq hy, path_cons_lt_cons_iff,
    path_append_lt_iff_of_length_eq hm, path_cons_lt_cons_iff,
    path_append_lt_iff_of_length_eq hd, path_cons_lt_cons_iff]
  simp [lt_irrefl]

theorem fullPath_lt_same_ym_iff {y m d d' f f' : Path}
    (h : d.length = d'.length) :
    fullPath y m d f < fullPath y m d' f' ↔ d < d' ∨ (d = d' ∧ f < f') := by
  rw [fullPath_lt_fullPath_iff rfl rfl h]
  simp [lt_irrefl]

theorem fullPath_lt_same_y_iff {y m m' d d' f f' : Path}
    (hm : m.length = m'.length) (hd : d.length = d'.length) :
    fullPath y m d f < fullPath y m' d' f' ↔
      m < m' ∨ (m = m' ∧ (d < d' ∨ (d = d' ∧ f < f'))) := by
  rw [fullPath_lt_fullPath_iff rfl hm hd]
  simp [lt_irrefl]

theorem monthPath_file_eq (y m a g : Path) :
    ((ALBUM_PATH ++ y) ++ '/' :: m) ++ '/' :: (a ++ '/' :: g) =
      fullPath y m a g := by
  simp [fullPath, List.append_assoc]

/-! ### Collection returns exactly the well-formed entries beyond the
watermark -/

theorem collectFromMonthDir_min_spec {y m d f p : Path} (hd : d.length = 2)
    (mm : MonthDir) :
    p ∈ collectFromMonthDir ((ALBUM_PATH ++ y) ++ '/' :: m)
        (fullPath y m d f) d true mm ↔
      ∃ dd ∈ mm.days, wfName 2 dd.name ∧
        ∃ g ∈ dd.files, p = fullPath y m dd.name g ∧
          fullPath y m d f < p := by
  rw [mem_collectFromMonthDir_min]
  constructor
  · rintro ⟨dd, hmem, hwf, hge, hcase⟩
    rcases hcase with ⟨heq, g, hg, hpeq, hlt⟩ | ⟨hne, g, hg, hpeq⟩
    · rw [monthPath_file_eq] at hpeq
      exact ⟨dd, hmem, hwf, g, hg, hpeq, hlt⟩
    · rw [monthPath_file_eq] at hpeq
      refine ⟨dd, hmem, hwf, g, hg, hpeq, ?_⟩
      rw [hpeq, fullPath_lt_same_ym_iff (hd.trans hwf.1.symm)]
      exact Or.inl (lt_of_le_of_ne hge (Ne.symm hne))
  · rintro ⟨dd, hmem, hwf, g, hg, hpeq, hlt⟩
    rw [hpeq, fullPath_lt_same_ym_iff (hd.trans hwf.1.symm)] at hlt
    rcases hlt with hlt | ⟨heq, hltf⟩
    · refine ⟨dd, hmem, hwf, le_of_lt hlt, Or.inr ⟨Ne.symm (ne_of_lt hlt), g,
        hg, ?_⟩⟩
      rw [monthPath_file_eq]
      exact hpeq
    · subst heq
      refine ⟨dd, hmem, hwf, le_rfl, Or.inl ⟨rfl, g, hg, ?_, ?_⟩⟩
      · rw [monthPath_file_eq]
        exact hpeq
      · rw [hpeq, fullPath_lt_same_ym_iff rfl]
        exact Or.inr ⟨rfl, hltf⟩

theorem collectFromYearDir_min_spec {y m d f p : Path} (hm : m.length = 2)
    (hd : d.length = 2) (yy : YearDir) :
    p ∈ collectFromYearDir (ALBUM_PATH ++ y) (fullPath y m d f) m d true yy ↔
      ∃ md ∈ yy.months, wfName 2 md.name ∧
        ∃ dd ∈ md.days, wfName 2 dd.name ∧
          ∃ g ∈ dd.files, p = fullPath y md.name dd.name g ∧
            fullPath y m d f < p := by
  rw [mem_collectFromYearDir_min]
  constructor
  · rintro ⟨md, hmem, hwf, hge, hcase⟩
    rcases hcase with ⟨heq, hp⟩ | ⟨hne, hp⟩
    · rw [heq] at hp
      obtain ⟨dd, hdd, hwfd, g, hg, hpeq, hlt⟩ :=
        (collectFromMonthDir_min_spec hd md).mp hp
      rw [← heq] at hpeq
      exact ⟨md, hmem, hwf, dd, hdd, hwfd, g, hg, hpeq, hlt⟩
    · obtain ⟨dd, hdd, hwfd, g, hg, hpeq⟩ :=
        mem_collectFromMonthDir_all.mp hp
      rw [monthPath_file_eq] at hpeq
      refine ⟨md, hmem, hwf, dd, hdd, hwfd, g, hg, hpeq, ?_⟩
      rw [hpeq,
        fullPath_lt_same_y_iff (hm.trans hwf.1.symm) (hd.trans hwfd.1.symm)]
      exact Or.inl (lt_of_le_of_ne hge (Ne.symm hne))
  · rintro ⟨md, hmem, hwf, dd, hdd, hwfd, g, hg, hpeq, hlt⟩
    rw [hpeq,
      fullPath_lt_same_y_iff (hm.trans hwf.1.symm) (hd.trans hwfd.1.symm)]
      at hlt
    rcases hlt with hlt | ⟨heq, hinner⟩
    · refine ⟨md, hmem, hwf, le_of_lt hlt, Or.inr ⟨Ne.symm (ne_of_lt hlt),
        mem_collectFromMonthDir_all.mpr ⟨dd, hdd, hwfd, g, hg, ?_⟩⟩⟩
      rw [monthPath_file_eq]
      exact hpeq
    · subst heq
      refine ⟨md, hmem, hwf, le_rfl, Or.inl ⟨rfl,
        (collectFromMonthDir_min_spec hd md).mpr
          ⟨dd, hdd, hwfd, g, hg, hpeq, ?_⟩⟩⟩
      rw [hpeq, fullPath_lt_same_y_iff rfl (hd.trans hwfd.1.symm)]
      exact Or.inr ⟨rfl, hinner⟩

theorem fullPath_ne_nil (y m d f : Path) : fullPath y m d f ≠ [] := by
  simp [fullPath, ALBUM_PATH]

theorem take5_fullPath (y m d f : Path) :
    (fullPath y m d f).take 5 = ALBUM_PATH := by
  rw [fullPath, List.append_assoc]
  exact List.take_left' (by decide)

theorem length_fullPath {y m d : Path} (f : Path) (hy : y.length = 4)
    (hm : m.length = 2) (hd : d.length = 2) :
    (fullPath y m d f).length = 16 + f.length := by
  simp [fullPath, ALBUM_PATH, hy, hm, hd]
  omega

theorem minYear_fullPath {y : Path} (m d f : Path) (hy : y.length = 4) :
    ((fullPath y m d f).drop 5).take 4 = y := by
  rw [fullPath, List.append_assoc, List.drop_left' (by decide)]
  exact List.take_left' hy

theorem minMonth_fullPath {y m : Path} (d f : Path) (hy : y.length = 4)
    (hm : m.length = 2) :
    ((fullPath y m d f).drop 10).take 2 = m := by
  have he : fullPath y m d f =
      (ALBUM_PATH ++ y ++ ['/']) ++ (m ++ '/' :: (d ++ '/' :: f)) := by
    simp [fullPath, List.append_assoc]
  rw [he, List.drop_left' (by simp [ALBUM_PATH, hy])]
  exact List.take_left' hm

theorem minDay_fullPath {y m d : Path} (f : Path) (hy : y.length = 4)
    (hm : m.length = 2) (hd : d.length = 2) :
    ((fullPath y m d f).drop 13).take 2 = d := by
  have he : fullPath y m d f =
      (ALBUM_PATH ++ y ++ '/' :: m ++ ['/']) ++ (d ++ '/' :: f) := by
    simp [fullPath, List.append_assoc]
  rw [he, List.drop_left' (by simp [ALBUM_PATH, hy, hm])]
  exact List.take_left' hd

theorem getNewAlbumItems_shape_eq (s : Store) (y m d f : Path)
    (hy : y.length = 4) (hm : m.length = 2) (hd : d.length = 2) :
    getNewAlbumItems s (fullPath y m d f) =
      Except.ok (List.insertionSort (fun a b : Path => a ≤ b)
        ((findDirsGE YearDir.name 4 y s.years).flatMap fun yd =>
          if yd.name = y then
            collectFromYearDir (ALBUM_PATH ++ yd.name) (fullPath y m d f)
              m d true yd
          else
            collectFromYearDir (ALBUM_PATH ++ yd.name) (fullPath y m d f)
              [] [] false yd)) := by
  have hlen := length_fullPath f hy hm hd
  have h1 : ¬ ((fullPath y m d f).length < 9) := by rw [hlen]; omega
  have h2 : ¬ ((fullPath y m d f).length < 12) := by rw [hlen]; omega
  have h3 : ¬ ((fullPath y m d f).length < 15) := by rw [hlen]; omega
  simp [getNewAlbumItems, fullPath_ne_nil, take5_fullPath, h1, h2, h3,
    minYear_fullPath m d f hy, minMonth_fullPath d f hy hm,
    minDay_fullPath f hy hm hd]

/-- `C2`: for a watermark of the expected shape `img:/YYYY/MM/DD/<file>`,
`getNewAlbumItems` succeeds and returns exactly the files reachable
through well-formed year/month/day directories whose full path is
strictly greater than the watermark, sorted ascending by full path. -/
theorem getNewAlbumItems_spec (s : Store) (y m d f : Path)
    (hy : y.length = 4) (hm : m.length = 2) (hd : d.length = 2) :
    ∃ items, getNewAlbumItems s (fullPath y m d f) = Except.ok items ∧
      items.Sorted (fun a b : Path => a ≤ b) ∧
      ∀ p, p ∈ items ↔ ReachableWF s p ∧ fullPath y m d f < p := by
  refine ⟨_, getNewAlbumItems_shape_eq s y m d f hy hm hd,
    List.sorted_insertionSort _ _, ?_⟩
  intro p
  rw [(List.perm_insertionSort _ _).mem_iff, List.mem_flatMap]
  constructor
  · rintro ⟨yd, hyd, hp⟩
    obtain ⟨hmem, hwf, hge⟩ := mem_findDirsGE.mp hyd
    by_cases heq : yd.name = y
    · rw [if_pos heq, heq] at hp
      obtain ⟨md, hmd, hwfm, dd, hdd, hwfd, g, hg, hpeq, hlt⟩ :=
        (collectFromYearDir_min_spec hm hd yd).mp hp
      refine ⟨⟨yd, hmem, hwf, md, hmd, hwfm, dd, hdd, hwfd, g, hg, ?_⟩, hlt⟩
      rw [heq]
      exact hpeq
    · rw [if_neg heq] at hp
      obtain ⟨md, hmd, hwfm, dd, hdd, hwfd, g, hg, hpeq⟩ :=
        mem_collectFromYearDir_all.mp hp
      have hpeq' : p = fullPath yd.name md.name dd.name g := by
        rw [fullPath]
        exact hpeq
      refine ⟨⟨yd, hmem, hwf, md, hmd, hwfm, dd, hdd, hwfd, g, hg, hpeq'⟩, ?_⟩
      rw [hpeq', fullPath_lt_fullPath_iff (hy.trans hwf.1.symm)
        (hm.trans hwfm.1.symm) (hd.trans hwfd.1.symm)]
      exact Or.inl (lt_of_le_of_ne hge (Ne.symm heq))
  · rintro ⟨⟨yd, hmem, hwf, md, hmd, hwfm, dd, hdd, hwfd, g, hg, hpeq⟩, hlt⟩
    have hcomp := hlt
    rw [hpeq, fullPath_lt_fullPath_iff (hy.trans hwf.1.symm)
      (hm.trans hwfm.1.symm) (hd.trans hwfd.1.symm)] at hcomp
    have hge : y ≤ yd.name := by
      rcases hcomp with h | ⟨h, -⟩
      · exact le_of_lt h
      · exact le_of_eq h
    refine ⟨yd, mem_findDirsGE.mpr ⟨hmem, hwf, hge⟩, ?_⟩
    rcases hcomp with h | ⟨heq, -⟩
    · rw [if_neg h.ne']
      refine mem_collectFromYearDir_all.mpr
        ⟨md, hmd, hwfm, dd, hdd, hwfd, g, hg, ?_⟩
      rw [← fullPath]
      exact hpeq
    · rw [if_pos heq.symm, heq]
      exact (collectFromYearDir_min_spec hm hd yd).mpr
        ⟨md, hmd, hwfm, dd, hdd, hwfd, g, hg, hpeq,
          by rw [← heq]; exact hlt⟩

/-! ### Properties of the max-scan loops -/

theorem path_le_nil {q : Path} (h : q ≤ []) : q = [] :=
  le_antisymm h List.nil_le

theorem findMaxAux_fst_le (nameOf : α → Path) (keep : α → Bool)
    (l : List α) : ∀ st : Path × Option α,
    st.1 ≤ (findMaxAux nameOf keep l st).1 := by
  induction l with
  | nil => intro st; exact le_rfl
  | cons e rest ih =>
      intro st
      rw [findMaxAux]
      by_cases hc : keep e = true ∧ st.1 < nameOf e
      · rw [if_pos hc]
        exact le_trans (le_of_lt hc.2) (ih (nameOf e, some e))
      · rw [if_neg hc]
        exact ih st

theorem findMaxAux_le_fst (nameOf : α → Path) (keep : α → Bool)
    (l : List α) : ∀ st : Path × Option α, ∀ x ∈ l, keep x = true →
    nameOf x ≤ (findMaxAux nameOf keep l st).1 := by
  induction l with
  | nil => intro st x hx; cases hx
  | cons e rest ih =>
      intro st x hx hk
      rw [findMaxAux]
      rcases List.mem_cons.mp hx with rfl | hx'
      · by_cases hc : keep x = true ∧ st.1 < nameOf x
        · rw [if_pos hc]
          exact findMaxAux_fst_le nameOf keep rest (nameOf x, some x)
        · rw [if_neg hc]
          have : ¬ st.1 < nameOf x := fun h => hc ⟨hk, h⟩
          exact le_trans (not_lt.mp this) (findMaxAux_fst_le nameOf keep rest st)
      · by_cases hc : keep e = true ∧ st.1 < nameOf e
        · rw [if_pos hc]
          exact ih _ x hx' hk
        · rw [if_neg hc]
          exact ih _ x hx' hk

theorem findMaxAux_snd_name (nameOf : α → Path) (keep : α → Bool)
    (l : List α) : ∀ st : Path × Option α,
    (∀ b, st.2 = some b → nameOf b = st.1 ∧ keep b = true) →
    ∀ a, (findMaxAux nameOf keep l st).2 = some a →
      nameOf a = (findMaxAux nameOf keep l st).1 ∧ keep a = true := by
  induction l with
  | nil => intro st hst a ha; exact hst a ha
  | cons e rest ih =>
      intro st hst a ha
      rw [findMaxAux] at ha ⊢
      by_cases hc : keep e = true ∧ st.1 < nameOf e
      · rw [if_pos hc] at ha ⊢
        refine ih _ ?_ a ha
        rintro b hb
        cases hb
        exact ⟨rfl, hc.1⟩
      · rw [if_neg hc] at ha ⊢
        exact ih _ hst a ha

theorem findMaxAux_mem (nameOf : α → Path) (keep : α → Bool)
    (l : List α) : ∀ st : Path × Option α, ∀ a,
    (findMaxAux nameOf keep l st).2 = some a → st.2 = some a ∨ a ∈ l := by
  induction l with
  | nil => intro st a ha; exact Or.inl ha
  | cons e rest ih =>
      intro st a ha
      rw [findMaxAux] at ha
      by_cases hc : keep e = true ∧ st.1 < nameOf e
      · rw [if_pos hc] at ha
        rcases ih _ a ha with h | h
        · cases h
          exact Or.inr (List.mem_cons_self _ _)
        · exact Or.inr (List.mem_cons_of_mem _ h)
      · rw [if_neg hc] at ha
        rcases ih _ a ha with h | h
        · exact Or.inl h
        · exact Or.inr (List.mem_cons_of_mem _ h)

theorem findMaxAux_isSome (nameOf : α → Path) (keep : α → Bool)
    (l : List α) : ∀ st : Path × Option α, st.2.isSome = true →
    ((findMaxAux nameOf keep l st).2).isSome = true := by
  induction l with
  | nil => intro st h; exact h
  | cons e rest ih =>
      intro st h
      rw [findMaxAux]
      by_cases hc : keep e = true ∧ st.1 < nameOf e
      · rw [if_pos hc]
        exact ih _ rfl
      · rw [if_neg hc]
        exact ih _ h

theorem findMaxAux_none (nameOf : α → Path) (keep : α → Bool)
    (l : List α) : ∀ st : Path × Option α,
    (findMaxAux nameOf keep l st).2 = none →
    st.2 = none ∧ ∀ x ∈ l, keep x = true → nameOf x ≤ st.1 := by
  induction l with
  | nil =>
      intro st h
      exact ⟨h, fun x hx => absurd hx (List.not_mem_nil x)⟩
  | cons e rest ih =>
      intro st h
      rw [findMaxAux] at h
      by_cases hc : keep e = true ∧ st.1 < nameOf e
      · rw [if_pos hc] at h
        have := findMaxAux_isSome nameOf keep rest (nameOf e, some e) rfl
        rw [h] at this
        cases this
      · rw [if_neg hc] at h
        obtain ⟨h1, h2⟩ := ih _ h
        refine ⟨h1, fun x hx hk => ?_⟩
        rcases List.mem_cons.mp hx with rfl | hx'
        · exact not_lt.mp (fun hlt => hc ⟨hk, hlt⟩)
        · exact h2 x hx' hk

theorem findMaxDir_some_spec {nameOf : α → Path} {len : Nat} {l : List α}
    {e : α} (h : findMaxDir nameOf len l = some e) :
    e ∈ l ∧ wfName len (nameOf e) ∧
      ∀ x ∈ l, wfName len (nameOf x) → nameOf x ≤ nameOf e := by
  unfold findMaxDir at h
  have hmem := findMaxAux_mem _ _ l ([], none) e h
  have hname := findMaxAux_snd_name _ _ l ([], none)
    (fun b hb => by cases hb) e h
  refine ⟨hmem.resolve_left (by simp), wfDir_eq_true_iff.mp hname.2,
    fun x hx hwx => ?_⟩
  rw [hname.1]
  exact findMaxAux_le_fst _ _ l ([], none) x hx (wfDir_eq_true_iff.mpr hwx)

theorem findMaxDir_none_spec {nameOf : α → Path} {len : Nat} {l : List α}
    (hlen : 0 < len) (h : findMaxDir nameOf len l = none) :
    ∀ x ∈ l, ¬ wfName len (nameOf x) := by
  unfold findMaxDir at h
  obtain ⟨-, hall⟩ := findMaxAux_none _ _ l ([], none) h
  intro x hx hw
  have h0 := path_le_nil (hall x hx (wfDir_eq_true_iff.mpr hw))
  have h1 := hw.1
  rw [h0] at h1
  simp at h1
  omega

theorem findMaxFileInDir_some_spec {dir : Path} {files : List Path}
    {fp : Path} (h : findMaxFileInDir dir files = some fp) :
    ∃ g ∈ files, fp = dir ++ '/' :: g ∧ ∀ x ∈ files, x ≤ g := by
  unfold findMaxFileInDir at h
  rcases hg : (findMaxAux id (fun _ => true) files ([], none)).2 with - | g
  · rw [hg] at h
    cases h
  · rw [hg] at h
    have hmem := findMaxAux_mem id (fun _ => true) files ([], none) g hg
    have hname := findMaxAux_snd_name id (fun _ => true) files ([], none)
      (fun b hb => by cases hb) g hg
    refine ⟨g, hmem.resolve_left (by simp), by simpa using h.symm,
      fun x hx => ?_⟩
    have := findMaxAux_le_fst id (fun _ => true) files ([], none) x hx rfl
    rw [← hname.1] at this
    exact this

theorem findMaxFileInDir_none_spec {dir : Path} {files : List Path}
    (h : findMaxFileInDir dir files = none) :
    ∀ x ∈ files, x = [] := by
  unfold findMaxFileInDir at h
  rcases hg : (findMaxAux id (fun _ => true) files ([], none)).2 with - | g
  · obtain ⟨-, hall⟩ := findMaxAux_none id (fun _ => true) files ([], none) hg
    exact fun x hx => path_le_nil (hall x hx rfl)
  · rw [hg] at h
    cases h

/-! ### `queue.cpp`: the bounded circular upload queue -/

/-- `MAX_QUEUE_SIZE` from `queue.hpp`. -/
def MAX_QUEUE_SIZE : Nat := 8

/-- `UploadTask` from `queue.hpp` (the fixed `char[128]` buffer holds at
most 127 characters plus the terminator). -/
structure UploadTask where
  filePath : Path
  fileSize : Nat
deriving DecidableEq

/-- The queue globals of `queue.cpp`: the 8-slot array, the read and
write positions and the count. -/
structure QueueState where
  entries : List UploadTask
  head : Nat
  tail : Nat
  count : Nat
deriving DecidableEq

/-- The zero-initialized queue globals. -/
def initialQueue : QueueState :=
  ⟨List.replicate MAX_QUEUE_SIZE ⟨[], 0⟩, 0, 0, 0⟩

/-- `queueAdd` from `queue.cpp`: reject when full, otherwise store at the
tail (`strncpy` keeps at most 127 characters) and advance it. -/
def queueAdd (q : QueueState) (filePath : Path) (fileSize : Nat) :
    QueueState × Bool :=
  if MAX_QUEUE_SIZE ≤ q.count then (q, false)
  else
    ({ entries := q.entries.set q.tail ⟨filePath.take 127, fileSize⟩,
       head := q.head,
       tail := (q.tail + 1) % MAX_QUEUE_SIZE,
       count := q.count + 1 }, true)

/-- `queueGet` from `queue.cpp`: nothing when empty, otherwise hand out
the head entry and advance the read position. -/
def queueGet (q : QueueState) : QueueState × Option UploadTask :=
  if q.count = 0 then (q, none)
  else
    ({ q with
       head := (q.head + 1) % MAX_QUEUE_SIZE,
       count := q.count - 1 },
     some (q.entries.getD q.head ⟨[], 0⟩))

/-- `queueCount` from `queue.cpp`. -/
def queueCount (q : QueueState) : Nat := q.count

/-- Structural invariant of the circular buffer: 8 slots, read position
in range, count bounded, write position determined by head and count. -/
def QueueWF (q : QueueState) : Prop :=
  q.entries.length = MAX_QUEUE_SIZE ∧ q.head < MAX_QUEUE_SIZE ∧
    q.count ≤ MAX_QUEUE_SIZE ∧
    q.tail = (q.head + q.count) % MAX_QUEUE_SIZE

instance (q : QueueState) : Decidable (QueueWF q) := by
  unfold QueueWF
  infer_instance

/-- The abstract content of the queue: the pending tasks from the head,
in dequeue order. -/
def absQueue (q : QueueState) : List UploadTask :=
  (List.range q.count).map fun i =>
    q.entries.getD ((q.head + i) % MAX_QUEUE_SIZE) ⟨[], 0⟩

/-! ### `upload.hpp` / `upload.cpp`: retry budgets and the senders -/

/-- `ImageTimeouts::maxRetries` from `upload.hpp`. -/
def ImageTimeouts_maxRetries : Nat := 2

/-- `VideoTimeouts::maxRetries` from `upload.hpp`. -/
def VideoTimeouts_maxRetries : Nat := 3

/-- `isVideoFile` from `upload.hpp`: the path ends in `.mp4`. -/
def isVideoFile (path : Path) : Bool :=
  decide (4 ≤ path.length) &&
    decide (path.drop (path.length - 4) = (".mp4").toList)

/-- `getMaxRetries` from `upload.hpp` (its only parameter is a `bool`). -/
def getMaxRetries (isVideo : Bool) : Nat :=
  if isVideo then VideoTimeouts_maxRetries else ImageTimeouts_maxRetries

/-- `getMaxRetriesFromPath` from `upload.hpp`. -/
def getMaxRetriesFromPath (path : Path) : Nat :=
  if isVideoFile path then VideoTimeouts_maxRetries
  else ImageTimeouts_maxRetries

/-- `UploadMode` constants from `config_defaults.hpp`. -/
def UploadMode_Compressed : Path := ("compressed").toList

def UploadMode_Original : Path := ("original").toList

def UploadMode_Both : Path := ("both").toList

/-- `ValidationResult` from `upload.cpp`. -/
inductive ValidationResult where
  | Success
  | Skip
  | Error
deriving DecidableEq

/-- `path.back() == '4'`, the movie test of `validateUploadFile`. -/
def isMovieBack (path : Path) : Bool := path.getLast? == some '4'

/-- `validateUploadFile` from `upload.cpp`: reject short paths, extract
the title id, and ask the per-type config flag whether the type may be
uploaded. Returns the result together with the title id and the movie
flag (the reference-out parameters). -/
def validateUploadFile (path : Path)
    (uploadScreenshots uploadMovies : Bool) :
    ValidationResult × Path × Bool :=
  if path.length < 36 then (ValidationResult.Error, [], false)
  else
    let tid := (path.drop (path.length - 36)).take 32
    let isMovie := isMovieBack path
    let shouldUpload := if isMovie then uploadMovies else uploadScreenshots
    if shouldUpload then (ValidationResult.Success, tid, isMovie)
    else (ValidationResult.Skip, tid, isMovie)

/-- The per-destination type flags and the ntfy topic of `Config`. -/
structure UploadConfig where
  telegramUploadScreenshots : Bool
  telegramUploadMovies : Bool
  ntfyUploadScreenshots : Bool
  ntfyUploadMovies : Bool
  discordUploadScreenshots : Bool
  discordUploadMovies : Bool
  ntfyTopic : Path
deriving DecidableEq

/-- What a sender call did: its boolean result and whether it reached the
point of opening the source file (everything after validation). -/
structure SendEffect where
  result : Bool
  accessedFile : Bool
deriving DecidableEq

/-- The filename component of a path (after the last separator). -/
def pathFilename (p : Path) : Path :=
  (p.reverse.takeWhile (fun c => c ≠ '/')).reverse

/-- The extension of a path's filename, from its last dot (the dot-file
special cases of `std::filesystem::path::extension` do not matter here:
the result is only ever compared against `.jpg` and `.mp4`). -/
def pathExtension (p : Path) : Path :=
  let revf := (pathFilename p).reverse
  if revf.any (fun c => c = '.') then
    '.' :: (revf.takeWhile (fun c => c ≠ '.')).reverse
  else []

/-- `getFileTypeInfo` yields an empty content type exactly when the
extension is neither `.jpg` nor `.mp4`; only that emptiness is tested. -/
def getFileTypeInfoKnown (ext : Path) : Bool :=
  (ext == (".jpg").toList) || (ext == (".mp4").toList)

set_option linter.unusedVariables false in
/-- `sendFileToTelegram` from `upload.cpp`, to the depth the claims need:
validation, the extension check, then the file open and the transfer,
whose outcomes stand in for the external file system and network
(`fopenOk`, `netOk`). `compression` only selects the Telegram method. -/
def sendFileToTelegram (c : UploadConfig) (fopenOk netOk : Bool)
    (path : Path) (compression : Bool) : SendEffect :=
  match validateUploadFile path c.telegramUploadScreenshots
      c.telegramUploadMovies with
  | (ValidationResult.Error, _, _) => ⟨false, false⟩
  | (ValidationResult.Skip, _, _) => ⟨true, false⟩
  | (ValidationResult.Success, _, _) =>
      if getFileTypeInfoKnown (pathExtension path) then
        if fopenOk then ⟨netOk, true⟩ else ⟨false, true⟩
      else ⟨false, false⟩

/-- `sendFileToNtfy` from `upload.cpp`: validation, file open, the topic
check, then the transfer. -/
def sendFileToNtfy (c : UploadConfig) (fopenOk netOk : Bool)
    (path : Path) : SendEffect :=
  match validateUploadFile path c.ntfyUploadScreenshots
      c.ntfyUploadMovies with
  | (ValidationResult.Error, _, _) => ⟨false, false⟩
  | (ValidationResult.Skip, _, _) => ⟨true, false⟩
  | (ValidationResult.Success, _, _) =>
      if fopenOk then
        if c.ntfyTopic = [] then ⟨false, true⟩ else ⟨netOk, true⟩
      else ⟨false, true⟩

/-- `sendFileToDiscord` from `upload.cpp`: validation, file open, then
the transfer. -/
def sendFileToDiscord (c : UploadConfig) (fopenOk netOk : Bool)
    (path : Path) : SendEffect :=
  match validateUploadFile path c.discordUploadScreenshots
      c.discordUploadMovies with
  | (ValidationResult.Error, _, _) => ⟨false, false⟩
  | (ValidationResult.Skip, _, _) => ⟨true, false⟩
  | (ValidationResult.Success, _, _) =>
      if fopenOk then ⟨netOk, true⟩ else ⟨false, true⟩

/-! ### `main.cpp`: the upload worker and the detector loop -/

/-- `exponentialBackoff` from `main.cpp`, as the slept delay in
milliseconds: `(1 << retryCount) * 1000`. -/
def exponentialBackoffMs (retryCount : Nat) : Nat :=
  2 ^ retryCount * 1000

/-- One per-destination retry loop of `uploadWorkerThread`
(`for retry in [0, maxRetries) while not sent`), with `rem` the number of
iterations still allowed (`maxRetries - retry`).  `iterate` is the loop
body's delivery attempt for a given `retry`, returning its success and
its attempt records.  The result collects the final success, all attempt
records, and the backoff delays slept before retries. -/
def runRetryLoopFrom (iterate : Nat → Bool × List β) :
    Nat → Nat → Bool × List β × List Nat
  | 0, _ => (false, [], [])
  | rem + 1, retry =>
      let delays : List Nat :=
        if 0 < retry then [exponentialBackoffMs (retry - 1)] else []
      let it := iterate retry
      if it.1 then (true, it.2, delays)
      else
        let r := runRetryLoopFrom iterate rem (retry + 1)
        (r.1, it.2 ++ r.2.1, delays ++ r.2.2)

/-- A full retry loop: `maxRetries` iterations from `retry = 0`. -/
def runRetryLoop (iterate : Nat → Bool × List β) (maxRetries : Nat) :
    Bool × List β × List Nat :=
  runRetryLoopFrom iterate maxRetries 0

/-- One Telegram delivery attempt: which representation was sent
(compressed or original) and whether that call succeeded. -/
structure TgAttempt where
  compressed : Bool
  ok : Bool
deriving DecidableEq

/-- The Telegram branch of the worker's retry-loop body
(`main.cpp` lines 213-221): one send in `compressed` or `original` mode,
two sends in `both` mode with success if either succeeded, and nothing
for an unknown mode.  `send retry compression` is the outcome of a
`sendFileToTelegram` call in iteration `retry`. -/
def telegramIterate (send : Nat → Bool → Bool) (mode : Path)
    (retry : Nat) : Bool × List TgAttempt :=
  if mode = UploadMode_Compressed then
    let r := send retry true
    (r, [⟨true, r⟩])
  else if mode = UploadMode_Original then
    let r := send retry false
    (r, [⟨false, r⟩])
  else if mode = UploadMode_Both then
    let c := send retry true
    let o := send retry false
    (c || o, [⟨true, c⟩, ⟨false, o⟩])
  else (false, [])

/-- The ntfy/Discord retry-loop body: a single send per iteration. -/
def simpleIterate (send : Nat → Bool) (retry : Nat) : Bool × List Bool :=
  (send retry, [send retry])

/-- What one destination did for one task: final success, the attempt
records in order, and the backoff delays slept (in milliseconds). -/
structure DestReport (β : Type) where
  sent : Bool
  attempts : List β
  delays : List Nat
deriving DecidableEq

def mkDestReport (r : Bool × List β × List Nat) : DestReport β :=
  ⟨r.1, r.2.1, r.2.2⟩

/-- Everything `uploadWorkerThread` does for one dequeued task. -/
structure TaskReport where
  maxRetries : Nat
  isVideo : Bool
  telegram : Option (DestReport TgAttempt)
  ntfy : Option (DestReport Bool)
  discord : Option (DestReport Bool)
  anySuccess : Bool
  loggedAllFailed : Bool
deriving DecidableEq

/-- The configuration the worker reads once at start. -/
structure WorkerConfig where
  telegramUploadMode : Path
  telegramEnabled : Bool
  ntfyEnabled : Bool
  discordEnabled : Bool
deriving DecidableEq

def destSent : Option (DestReport β) → Bool
  | some r => r.sent
  | none => false

/-- The per-task body of `uploadWorkerThread` (`main.cpp` lines 191-268).
The send oracles give each delivery call's outcome.  Note the retry
budget: the C++ calls `getMaxRetries(filePath)` where `filePath` is a
`char[128]` and the only `getMaxRetries` overload takes `bool`, so the
array decays to a non-null pointer that converts to `true` — every task
gets the video budget, `.mp4` or not. -/
def processTask (cfg : WorkerConfig) (tgSend : Nat → Bool → Bool)
    (ntfySend discordSend : Nat → Bool) (filePath : Path) : TaskReport :=
  let maxRetries := getMaxRetries true
  let isVideo := isVideoFile filePath
  let tg := if cfg.telegramEnabled then
      some (mkDestReport (runRetryLoop
        (telegramIterate tgSend cfg.telegramUploadMode) maxRetries))
    else none
  let nt := if cfg.ntfyEnabled then
      some (mkDestReport (runRetryLoop (simpleIterate ntfySend) maxRetries))
    else none
  let dc := if cfg.discordEnabled then
      some (mkDestReport (runRetryLoop (simpleIterate discordSend)
        maxRetries))
    else none
  let anySuccess := destSent tg || destSent nt || destSent dc
  { maxRetries := maxRetries, isVideo := isVideo, telegram := tg,
    ntfy := nt, discord := dc, anySuccess := anySuccess,
    loggedAllFailed := !anySuccess }

/-- The send oracles for whole worker runs: outcome of each delivery call
given the task's path and size, the retry iteration, and (for Telegram)
the compression flag. -/
structure Destinations where
  tg : Path → Nat → Nat → Bool → Bool
  ntfy : Path → Nat → Nat → Bool
  discord : Path → Nat → Nat → Bool

/-- The dequeue loop of `uploadWorkerThread`: take tasks until the queue
reports empty.  `fuel` bounds the iterations; `uploadWorkerThread` runs
it with the queue's count, which is exactly the number of dequeues that
can succeed. -/
def uploadWorkerGo (cfg : WorkerConfig) (dst : Destinations) :
    Nat → QueueState → List TaskReport × QueueState
  | 0, q => ([], q)
  | fuel + 1, q =>
      match queueGet q with
      | (q', none) => ([], q')
      | (q', some t) =>
          let r := processTask cfg (dst.tg t.filePath t.fileSize)
            (dst.ntfy t.filePath t.fileSize)
            (dst.discord t.filePath t.fileSize) t.filePath
          let rest := uploadWorkerGo cfg dst fuel q'
          (r :: rest.1, rest.2)

/-- `uploadWorkerThread` from `main.cpp`: drain the queue, producing one
report per dequeued task. -/
def uploadWorkerThread (cfg : WorkerConfig) (dst : Destinations)
    (q : QueueState) : List TaskReport × QueueState :=
  uploadWorkerGo cfg dst q.count q

/-- The detector-loop state the claims are about: the queue and the
last-item watermark (`lastItemResult`). -/
structure DetectorState where
  queue : QueueState
  lastItem : Path
deriving DecidableEq

/-- One iteration of the per-item body of the detection loop
(`main.cpp` lines 397-459): skip empty files; otherwise try to enqueue
and update the watermark to the item's path whether or not the enqueue
succeeded (the thread bookkeeping has no bearing on queue or watermark). -/
def detectorProcessItem (fsize : Path → Nat) (st : DetectorState)
    (item : Path) : DetectorState :=
  if 0 < fsize item then
    let r := queueAdd st.queue item (fsize item)
    { queue := r.1, lastItem := item }
  else st

/-- The detection loop's pass over the new items of one poll. -/
def detectorProcessItems (fsize : Path → Nat) (st : DetectorState)
    (items : List Path) : DetectorState :=
  items.foldl (detectorProcessItem fsize) st

/-- Uniqueness of directory names per level: what a real directory
listing always satisfies (a parent never lists two children with the
same name). -/
def UniqueNames (s : Store) : Prop :=
  (s.years.map YearDir.name).Nodup ∧
    (∀ yd ∈ s.years, (yd.months.map MonthDir.name).Nodup) ∧
    (∀ yd ∈ s.years, ∀ md ∈ yd.months, (md.days.map DayDir.name).Nodup)

instance (s : Store) : Decidable (UniqueNames s) := by
  unfold UniqueNames
  infer_instance

/-! ### Queue lemmas: refinement of the circular buffer by a list -/

theorem queueAdd_full {q : QueueState} (h : q.count = MAX_QUEUE_SIZE)
    (p : Path) (n : Nat) : queueAdd q p n = (q, false) := by
  unfold queueAdd
  rw [if_pos (le_of_eq h.symm)]

theorem queueGet_empty {q : QueueState} (h : q.count = 0) :
    queueGet q = (q, none) := by
  unfold queueGet
  rw [if_pos h]

theorem queueAdd_abs {q : QueueState} (hwf : QueueWF q)
    (hlt : q.count < MAX_QUEUE_SIZE) (p : Path) (n : Nat) :
    (queueAdd q p n).2 = true ∧ QueueWF (queueAdd q p n).1 ∧
      absQueue (queueAdd q p n).1 = absQueue q ++ [⟨p.take 127, n⟩] := by
  obtain ⟨hlen, hhead, hcount, htail⟩ := hwf
  unfold queueAdd
  rw [if_neg (not_le.mpr hlt)]
  simp only [MAX_QUEUE_SIZE] at hlen hhead hcount htail hlt
  refine ⟨rfl, ⟨?_, ?_, ?_, ?_⟩, ?_⟩
  · simpa [List.length_set, MAX_QUEUE_SIZE] using hlen
  · simpa [MAX_QUEUE_SIZE] using hhead
  · simp only [MAX_QUEUE_SIZE]
    omega
  · simp only [MAX_QUEUE_SIZE]
    omega
  · unfold absQueue
    simp only [MAX_QUEUE_SIZE, List.range_succ, List.map_append,
      List.map_cons, List.map_nil]
    congr 1
    · apply List.map_congr_left
      intro i hi
      rw [List.mem_range] at hi
      have hne : q.tail ≠ (q.head + i) % 8 := by omega
      rw [List.getD_eq_getElem?_getD, List.getD_eq_getElem?_getD,
        List.getElem?_set_ne hne]
    · have htl : q.tail = (q.head + q.count) % 8 := htail
      have hlt8 : q.tail < 8 := by omega
      rw [← htl, List.getD_eq_getElem?_getD,
        List.getElem?_set_self (by omega)]
      rfl

theorem queueGet_abs {q : QueueState} (hwf : QueueWF q)
    (hpos : 0 < q.count) :
    (queueGet q).2 = (absQueue q).head? ∧ QueueWF (queueGet q).1 ∧
      absQueue (queueGet q).1 = (absQueue q).tail := by
  obtain ⟨hlen, hhead, hcount, htail⟩ := hwf
  unfold queueGet
  rw [if_neg (Nat.pos_iff_ne_zero.mp hpos)]
  simp only [MAX_QUEUE_SIZE] at hlen hhead hcount htail hpos
  obtain ⟨k, hk⟩ : ∃ k, q.count = k + 1 :=
    ⟨q.count - 1, by omega⟩
  constructor
  · unfold absQueue
    rw [hk, List.range_succ_eq_map]
    simp only [List.map_cons, List.head?_cons]
    have : (q.head + 0) % MAX_QUEUE_SIZE = q.head := by
      simp only [MAX_QUEUE_SIZE]
      omega
    rw [this]
  constructor
  · refine ⟨hlen, ?_, ?_, ?_⟩ <;> simp only [MAX_QUEUE_SIZE] <;> omega
  · unfold absQueue
    rw [hk]
    simp only [List.range_succ_eq_map, List.map_cons, List.tail_cons,
      List.map_map]
    apply List.map_congr_left
    intro i hi
    have : ((q.head + 1) % 8 + i) % 8 = (q.head + Nat.succ i) % 8 := by
      omega
    simp only [MAX_QUEUE_SIZE, Function.comp_apply, this]

/-- The worker's handling of one queued task, with the oracles
specialized to the task. -/
def procOf (cfg : WorkerConfig) (dst : Destinations) (t : UploadTask) :
    TaskReport :=
  processTask cfg (dst.tg t.filePath t.fileSize)
    (dst.ntfy t.filePath t.fileSize) (dst.discord t.filePath t.fileSize)
    t.filePath

theorem uploadWorkerGo_abs (cfg : WorkerConfig) (dst : Destinations) :
    ∀ (fuel : Nat) (q : QueueState), QueueWF q → q.count ≤ fuel →
      (uploadWorkerGo cfg dst fuel q).1 =
        (absQueue q).map (procOf cfg dst) ∧
      (uploadWorkerGo cfg dst fuel q).2.count = 0 := by
  intro fuel
  induction fuel with
  | zero =>
      intro q hwf hle
      have h0 : q.count = 0 := Nat.le_zero.mp hle
      constructor
      · simp [uploadWorkerGo, absQueue, h0]
      · simp [uploadWorkerGo, h0]
  | succ fuel ih =>
      intro q hwf hle
      by_cases h0 : q.count = 0
      · constructor
        · simp [uploadWorkerGo, queueGet_empty h0, absQueue, h0]
        · simp [uploadWorkerGo, queueGet_empty h0, h0]
      · have hpos : 0 < q.count := Nat.pos_of_ne_zero h0
        obtain ⟨hh, hwf', habs'⟩ := queueGet_abs hwf hpos
        have hlenabs : absQueue q ≠ [] := by
          unfold absQueue
          simp only [ne_eq, List.map_eq_nil_iff, List.range_eq_nil]
          exact h0
        obtain ⟨t0, rest, habseq⟩ := List.exists_cons_of_ne_nil hlenabs
        rcases hqg : queueGet q with ⟨q', ot⟩
        have hh' : ot = (absQueue q).head? := by
          have h := hh
          rw [hqg] at h
          exact h
        have hot : ot = some t0 := by
          rw [hh', habseq]
          rfl
        subst hot
        have hwf'' : QueueWF q' := by
          have h := hwf'
          rw [hqg] at h
          exact h
        have habs'' : absQueue q' = (absQueue q).tail := by
          have h := habs'
          rw [hqg] at h
          exact h
        have hcount' : q'.count ≤ fuel := by
          have he : (queueGet q).1.count = q.count - 1 := by
            unfold queueGet
            rw [if_neg h0]
          rw [hqg] at he
          have he2 : q'.count = q.count - 1 := he
          omega
        obtain ⟨ih1, ih2⟩ := ih q' hwf'' hcount'
        constructor
        · simp only [uploadWorkerGo, hqg]
          rw [ih1, habs'', habseq]
          simp [procOf]
        · simp only [uploadWorkerGo, hqg]
          exact ih2

theorem uploadWorkerThread_abs (cfg : WorkerConfig) (dst : Destinations)
    (q : QueueState) (hwf : QueueWF q) :
    (uploadWorkerThread cfg dst q).1 = (absQueue q).map (procOf cfg dst) ∧
      (uploadWorkerThread cfg dst q).2.count = 0 :=
  uploadWorkerGo_abs cfg dst q.count q hwf le_rfl

/-- A small album: `2024/01/15/a.jpg`, `2024/01/16/b.jpg`,
`2024/02/01/c.mp4`. -/
def sampleStore : Store :=
  ⟨[⟨("2024").toList,
     [⟨("01").toList,
       [⟨("15").toList, [("a.jpg").toList]⟩,
        ⟨("16").toList, [("b.jpg").toList]⟩]⟩,
      ⟨("02").toList, [⟨("01").toList, [("c.mp4").toList]⟩]⟩]⟩]⟩

/-- An album whose greatest year directory is empty while an older year
holds a file. -/
def gapStore : Store :=
  ⟨[⟨("2024").toList,
     [⟨("01").toList, [⟨("15").toList, [("a.jpg").toList]⟩]⟩]⟩,
    ⟨("2025").toList, []⟩]⟩

/-! ### `getLastAlbumItem`: maximality on success, level naming on error -/

theorem getLastAlbumItem_ok_max (s : Store) (hu : UniqueNames s) {p : Path}
    (hok : getLastAlbumItem s = Except.ok p) :
    ReachableWF s p ∧ ∀ q, ReachableWF s q → q ≤ p := by
  rcases hY : findMaxDir YearDir.name 4 s.years with - | yd
  · simp only [getLastAlbumItem, hY] at hok
    exact Except.noConfusion hok
  rcases hM : findMaxDir MonthDir.name 2 yd.months with - | md
  · simp only [getLastAlbumItem, hY, hM] at hok
    exact Except.noConfusion hok
  rcases hD : findMaxDir DayDir.name 2 md.days with - | dd
  · simp only [getLastAlbumItem, hY, hM, hD] at hok
    exact Except.noConfusion hok
  rcases hF : findMaxFileInDir
      (((ALBUM_PATH ++ yd.name) ++ '/' :: md.name) ++ '/' :: dd.name)
      dd.files with - | fp
  · simp only [getLastAlbumItem, hY, hM, hD, hF] at hok
    exact Except.noConfusion hok
  simp only [getLastAlbumItem, hY, hM, hD, hF, Except.ok.injEq] at hok
  subst hok
  obtain ⟨hYmem, hYwf, hYmax⟩ := findMaxDir_some_spec hY
  obtain ⟨hMmem, hMwf, hMmax⟩ := findMaxDir_some_spec hM
  obtain ⟨hDmem, hDwf, hDmax⟩ := findMaxDir_some_spec hD
  obtain ⟨g, hgmem, hfpeq, hgmax⟩ := findMaxFileInDir_some_spec hF
  have hfull : fp = fullPath yd.name md.name dd.name g := by
    rw [hfpeq]
    simp [fullPath, List.append_assoc]
  refine ⟨⟨yd, hYmem, hYwf, md, hMmem, hMwf, dd, hDmem, hDwf, g, hgmem,
    hfull⟩, ?_⟩
  rintro q ⟨yd', hmem', hwf', md', hmd', hwfm', dd', hdd', hwfd', g', hg',
    rfl⟩
  by_contra hle
  have hpq := not_le.mp hle
  rw [hfull, fullPath_lt_fullPath_iff (hYwf.1.trans hwf'.1.symm)
    (hMwf.1.trans hwfm'.1.symm) (hDwf.1.trans hwfd'.1.symm)] at hpq
  rcases hpq with hlt | ⟨heq1, hpq2⟩
  · exact absurd hlt (not_lt.mpr (hYmax yd' hmem' hwf'))
  · have hyy : yd' = yd :=
      List.inj_on_of_nodup_map hu.1 hmem' hYmem heq1.symm
    subst hyy
    rcases hpq2 with hlt | ⟨heq2, hpq3⟩
    · exact absurd hlt (not_lt.mpr (hMmax md' hmd' hwfm'))
    · have hmm : md' = md :=
        List.inj_on_of_nodup_map (hu.2.1 yd' hmem') hmd' hMmem heq2.symm
      subst hmm
      rcases hpq3 with hlt | ⟨heq3, hpq4⟩
      · exact absurd hlt (not_lt.mpr (hDmax dd' hdd' hwfd'))
      · have hdq : dd' = dd :=
          List.inj_on_of_nodup_map (hu.2.2 yd' hmem' md' hmd') hdd' hDmem
            heq3.symm
        subst hdq
        exact absurd hpq4 (not_lt.mpr (hgmax g' hg'))

theorem getLastAlbumItem_error_form (s : Store) {e : Path}
    (he : getLastAlbumItem s = Except.error e) :
    (e = ("No valid year directories in img:/").toList ∧
       ∀ yd ∈ s.years, ¬ wfName 4 yd.name) ∨
    (∃ yd, findMaxDir YearDir.name 4 s.years = some yd ∧
       e = ("No valid month directories in ").toList ++
         (ALBUM_PATH ++ yd.name) ∧
       ∀ md ∈ yd.months, ¬ wfName 2 md.name) ∨
    (∃ yd md, findMaxDir YearDir.name 4 s.years = some yd ∧
       findMaxDir MonthDir.name 2 yd.months = some md ∧
       e = ("No valid day directories in ").toList ++
         ((ALBUM_PATH ++ yd.name) ++ '/' :: md.name) ∧
       ∀ dd ∈ md.days, ¬ wfName 2 dd.name) ∨
    (∃ yd md dd, findMaxDir YearDir.name 4 s.years = some yd ∧
       findMaxDir MonthDir.name 2 yd.months = some md ∧
       findMaxDir DayDir.name 2 md.days = some dd ∧
       e = ("No files found in ").toList ++
         (((ALBUM_PATH ++ yd.name) ++ '/' :: md.name) ++ '/' :: dd.name) ∧
       ∀ g ∈ dd.files, g = []) := by
  rcases hY : findMaxDir YearDir.name 4 s.years with - | yd
  · left
    simp only [getLastAlbumItem, hY, Except.error.injEq] at he
    exact ⟨he.symm, findMaxDir_none_spec (by omega) hY⟩
  rcases hM : findMaxDir MonthDir.name 2 yd.months with - | md
  · right; left
    simp only [getLastAlbumItem, hY, hM, Except.error.injEq] at he
    exact ⟨yd, rfl, he.symm, findMaxDir_none_spec (by omega) hM⟩
  rcases hD : findMaxDir DayDir.name 2 md.days with - | dd
  · right; right; left
    simp only [getLastAlbumItem, hY, hM, hD, Except.error.injEq] at he
    exact ⟨yd, md, rfl, hM, he.symm, findMaxDir_none_spec (by omega) hD⟩
  rcases hF : findMaxFileInDir
      (((ALBUM_PATH ++ yd.name) ++ '/' :: md.name) ++ '/' :: dd.name)
      dd.files with - | fp
  · right; right; right
    simp only [getLastAlbumItem, hY, hM, hD, hF, Except.error.injEq] at he
    exact ⟨yd, md, dd, rfl, hM, hD, he.symm,
      findMaxFileInDir_none_spec hF⟩
  · simp only [getLastAlbumItem, hY, hM, hD, hF] at he
    exact Except.noConfusion he

/-! ### Retry-loop unfolding -/

theorem runRetryLoopFrom_succ_success {iterate : Nat → Bool × List β}
    {retry : Nat} (rem : Nat) (h : (iterate retry).1 = true) :
    runRetryLoopFrom iterate (rem + 1) retry =
      (true, (iterate retry).2,
       if 0 < retry then [exponentialBackoffMs (retry - 1)] else []) := by
  simp only [runRetryLoopFrom]
  rw [if_pos h]

theorem runRetryLoopFrom_succ_failure {iterate : Nat → Bool × List β}
    {retry : Nat} (rem : Nat) (h : (iterate retry).1 = false) :
    runRetryLoopFrom iterate (rem + 1) retry =
      ((runRetryLoopFrom iterate rem (retry + 1)).1,
       (iterate retry).2 ++ (runRetryLoopFrom iterate rem (retry + 1)).2.1,
       (if 0 < retry then [exponentialBackoffMs (retry - 1)] else []) ++
         (runRetryLoopFrom iterate rem (retry + 1)).2.2) := by
  simp only [runRetryLoopFrom]
  rw [if_neg (by rw [h]; exact Bool.false_ne_true)]

theorem processTask_fields (cfg : WorkerConfig)
    (tgSend : Nat → Bool → Bool) (ntfySend discordSend : Nat → Bool)
    (filePath : Path) :
    (processTask cfg tgSend ntfySend discordSend filePath).telegram.isSome
        = cfg.telegramEnabled ∧
    (processTask cfg tgSend ntfySend discordSend filePath).ntfy.isSome
        = cfg.ntfyEnabled ∧
    (processTask cfg tgSend ntfySend discordSend filePath).discord.isSome
        = cfg.discordEnabled ∧
    (processTask cfg tgSend ntfySend discordSend filePath).anySuccess
        = (destSent (processTask cfg tgSend ntfySend discordSend
            filePath).telegram ||
           destSent (processTask cfg tgSend ntfySend discordSend
            filePath).ntfy ||
           destSent (processTask cfg tgSend ntfySend discordSend
            filePath).discord) ∧
    (processTask cfg tgSend ntfySend discordSend filePath).loggedAllFailed
        = !(processTask cfg tgSend ntfySend discordSend
            filePath).anySuccess ∧
    (processTask cfg tgSend ntfySend discordSend filePath).maxRetries
        = getMaxRetries true := by
  rcases cfg with ⟨mode, tgE, ntE, dcE⟩
  cases tgE <;> cases ntE <;> cases dcE <;>
    simp [processTask, destSent]

theorem loggedAllFailed_iff (r : TaskReport)
    (hlog : r.loggedAllFailed = !r.anySuccess)
    (hany : r.anySuccess =
      (destSent r.telegram || destSent r.ntfy || destSent r.discord)) :
    (r.loggedAllFailed = true ↔
      destSent r.telegram = false ∧ destSent r.ntfy = false ∧
        destSent r.discord = false) := by
  rw [hlog, hany]
  cases destSent r.telegram <;> cases destSent r.ntfy <;>
    cases destSent r.discord <;> simp

theorem absQueue_length (q : QueueState) :
    (absQueue q).length = q.count := by
  simp [absQueue]

/-! ### Sender validation -/

theorem validateUploadFile_skip {path : Path} {us um : Bool}
    (h36 : 36 ≤ path.length)
    (hflag : (if isMovieBack path then um else us) = false) :
    (validateUploadFile path us um).1 = ValidationResult.Skip := by
  unfold validateUploadFile
  rw [if_neg (not_lt.mpr h36)]
  simp only [hflag]
  rw [if_neg (by exact Bool.false_ne_true)]

theorem sendFileToTelegram_skip {c : UploadConfig} {fopenOk netOk : Bool}
    {path : Path} {compression : Bool}
    (h : (validateUploadFile path c.telegramUploadScreenshots
      c.telegramUploadMovies).1 = ValidationResult.Skip) :
    sendFileToTelegram c fopenOk netOk path compression = ⟨true, false⟩ := by
  unfold sendFileToTelegram
  rcases hv : validateUploadFile path c.telegramUploadScreenshots
      c.telegramUploadMovies with ⟨res, tid, mov⟩
  rw [hv] at h
  cases h
  rfl

theorem sendFileToNtfy_skip {c : UploadConfig} {fopenOk netOk : Bool}
    {path : Path}
    (h : (validateUploadFile path c.ntfyUploadScreenshots
      c.ntfyUploadMovies).1 = ValidationResult.Skip) :
    sendFileToNtfy c fopenOk netOk path = ⟨true, false⟩ := by
  unfold sendFileToNtfy
  rcases hv : validateUploadFile path c.ntfyUploadScreenshots
      c.ntfyUploadMovies with ⟨res, tid, mov⟩
  rw [hv] at h
  cases h
  rfl

theorem sendFileToDiscord_skip {c : UploadConfig} {fopenOk netOk : Bool}
    {path : Path}
    (h : (validateUploadFile path c.discordUploadScreenshots
      c.discordUploadMovies).1 = ValidationResult.Skip) :
    sendFileToDiscord c fopenOk netOk path = ⟨true, false⟩ := by
  unfold sendFileToDiscord
  rcases hv : validateUploadFile path c.discordUploadScreenshots
      c.discordUploadMovies with ⟨res, tid, mov⟩
  rw [hv] at h
  cases h
  rfl

/-! ### Short watermarks -/

/-- Claim C9 (amended): a nonempty watermark that begins with the
`img:/` prefix but is shorter than the 15 characters of
`img:/YYYY/MM/DD` makes `getNewAlbumItems` fail with the invalid-path
error rather than return items.  (The empty watermark is different: it
is the cold-start case and succeeds.) -/
theorem getNewAlbumItems_short (s : Store) (w : Path)
    (h5 : w.take 5 = ALBUM_PATH) (hlen : w.length < 15) :
    getNewAlbumItems s w = Except.error INVALID_PATH_MSG := by
  have hne : w ≠ [] := by
    intro h
    rw [h] at h5
    exact absurd h5 (by decide)
  by_cases h9 : w.length < 9
  · simp [getNewAlbumItems, hne, h5, h9]
  · by_cases h12 : w.length < 12
    · simp [getNewAlbumItems, hne, h5, h9, h12]
    · simp [getNewAlbumItems, hne, h5, h9, h12, hlen]

/-! ### Scenario helpers for the queue claims -/

/-- Enqueue a batch, recording each call's boolean result. -/
def enqueueAll (q : QueueState) (items : List (Path × Nat)) :
    QueueState × List Bool :=
  items.foldl
    (fun acc it =>
      let r := queueAdd acc.1 it.1 it.2
      (r.1, acc.2 ++ [r.2]))
    (q, [])

/-- Dequeue `n` times, recording each call's result. -/
def dequeueN (q : QueueState) : Nat → QueueState × List (Option UploadTask)
  | 0 => (q, [])
  | n + 1 =>
      let r := queueGet q
      let rest := dequeueN r.1 n
      (rest.1, r.2 :: rest.2)

/-- A queue whose count is at capacity. -/
def fullQueue : QueueState :=
  ⟨List.replicate MAX_QUEUE_SIZE ⟨[], 0⟩, 0, 0, MAX_QUEUE_SIZE⟩

/-- A well-formed queue holding two pending tasks. -/
def twoTaskQueue : QueueState :=
  ⟨[⟨("img:/2024/01/15/a.jpg").toList, 1⟩,
    ⟨("img:/2024/01/16/b.jpg").toList, 2⟩,
    ⟨[], 0⟩, ⟨[], 0⟩, ⟨[], 0⟩, ⟨[], 0⟩, ⟨[], 0⟩, ⟨[], 0⟩], 0, 2, 2⟩

/-- A detector state whose queue is full. -/
def fullDetectorState : DetectorState := ⟨fullQueue, []⟩

/-! ### The claims -/

/-- Claim C1 (code bug evidence): an image item (path not ending in
`.mp4`) is given 3 delivery attempts per enabled destination by the
worker, even though the per-type policy of `upload.hpp`
(`getMaxRetriesFromPath`) budgets 2 for images — `main.cpp` passes the
`char[128]` path to `getMaxRetries(bool)`, so the pointer converts to
`true` and every task gets the video budget.  The backoff delays between
attempts are 1000 ms then 2000 ms as specified, and a video item does
get its specified 3 attempts. -/
theorem image_retry_budget_bug :
    isVideoFile (("img:/2024/01/15/a.jpg").toList) = false ∧
    getMaxRetriesFromPath (("img:/2024/01/15/a.jpg").toList) = 2 ∧
    (processTask ⟨UploadMode_Compressed, true, true, true⟩
      (fun _ _ => false) (fun _ => false) (fun _ => false)
      (("img:/2024/01/15/a.jpg").toList)).maxRetries = 3 ∧
    (processTask ⟨UploadMode_Compressed, true, true, true⟩
      (fun _ _ => false) (fun _ => false) (fun _ => false)
      (("img:/2024/01/15/a.jpg").toList)).telegram =
      some ⟨false, [⟨true, false⟩, ⟨true, false⟩, ⟨true, false⟩],
        [1000, 2000]⟩ ∧
    (processTask ⟨UploadMode_Compressed, true, true, true⟩
      (fun _ _ => false) (fun _ => false) (fun _ => false)
      (("img:/2024/01/15/a.jpg").toList)).ntfy =
      some ⟨false, [false, false, false], [1000, 2000]⟩ ∧
    (processTask ⟨UploadMode_Compressed, true, true, true⟩
      (fun _ _ => false) (fun _ => false) (fun _ => false)
      (("img:/2024/01/15/a.jpg").toList)).discord =
      some ⟨false, [false, false, false], [1000, 2000]⟩ ∧
    isVideoFile (("img:/2024/01/15/b.mp4").toList) = true ∧
    (processTask ⟨UploadMode_Compressed, true, true, true⟩
      (fun _ _ => false) (fun _ => false) (fun _ => false)
      (("img:/2024/01/15/b.mp4").toList)).ntfy =
      some ⟨false, [false, false, false], [1000, 2000]⟩ := by
  decide

/-- Claim C3: for a newly discovered item of positive size, the detector
loop updates the watermark to the item's path, and when the queue is
already full the item is dropped (queue unchanged, enqueue rejected) yet
still marked seen. -/
theorem detector_advances_watermark (fsize : Path → Nat)
    (st : DetectorState) (item : Path) (h : 0 < fsize item) :
    (detectorProcessItem fsize st item).lastItem = item ∧
    (st.queue.count = MAX_QUEUE_SIZE →
       (detectorProcessItem fsize st item).queue = st.queue ∧
       (queueAdd st.queue item (fsize item)).2 = false) := by
  unfold detectorProcessItem
  rw [if_pos h]
  refine ⟨rfl, fun hfull => ?_⟩
  rw [queueAdd_full hfull]
  exact ⟨rfl, rfl⟩

/-- Witness for C3 at a full queue and a unit-size file. -/
theorem detector_advances_watermark_witness :
    0 < (fun _ : Path => 1) (("img:/2024/01/15/a.jpg").toList) ∧
    ((detectorProcessItem (fun _ => 1) fullDetectorState
        (("img:/2024/01/15/a.jpg").toList)).lastItem =
      ("img:/2024/01/15/a.jpg").toList ∧
     (fullDetectorState.queue.count = MAX_QUEUE_SIZE →
       (detectorProcessItem (fun _ => 1) fullDetectorState
          (("img:/2024/01/15/a.jpg").toList)).queue =
         fullDetectorState.queue ∧
       (queueAdd fullDetectorState.queue (("img:/2024/01/15/a.jpg").toList)
          ((fun _ : Path => 1) (("img:/2024/01/15/a.jpg").toList))).2 =
         false)) :=
  ⟨by decide,
   detector_advances_watermark (fun _ => 1) fullDetectorState
     (("img:/2024/01/15/a.jpg").toList) (by decide)⟩

/-- Claim C5: a full queue rejects an enqueue without touching any state,
an empty queue rejects a dequeue without touching any state, and from
the initial queue 8 enqueues all succeed, the 9th fails with the count
still 8, and after 8 dequeues the count is 0 and a further dequeue
returns nothing. -/
theorem queue_capacity_bounds :
    (∀ (q : QueueState) (p : Path) (n : Nat), q.count = MAX_QUEUE_SIZE →
        queueAdd q p n = (q, false)) ∧
    (∀ q : QueueState, q.count = 0 → queueGet q = (q, none)) ∧
    ((enqueueAll initialQueue ((List.range 8).map fun i =>
        ((("t").toList), i))).2 = List.replicate 8 true ∧
     queueCount (enqueueAll initialQueue ((List.range 8).map fun i =>
        ((("t").toList), i))).1 = 8 ∧
     queueAdd (enqueueAll initialQueue ((List.range 8).map fun i =>
        ((("t").toList), i))).1 (("x").toList) 9 =
       ((enqueueAll initialQueue ((List.range 8).map fun i =>
         ((("t").toList), i))).1, false) ∧
     queueCount (dequeueN (enqueueAll initialQueue
        ((List.range 8).map fun i => ((("t").toList), i))).1 8).1 = 0 ∧
     (queueGet (dequeueN (enqueueAll initialQueue
        ((List.range 8).map fun i => ((("t").toList), i))).1 8).1).2 =
       none) :=
  ⟨fun q p n h => queueAdd_full h p n,
   fun q h => queueGet_empty h,
   by decide⟩

/-- Witness for C5 at a full and at an empty queue. -/
theorem queue_capacity_bounds_witness :
    (fullQueue.count = MAX_QUEUE_SIZE ∧
      queueAdd fullQueue (("x").toList) 1 = (fullQueue, false)) ∧
    (initialQueue.count = 0 ∧
      queueGet initialQueue = (initialQueue, none)) :=
  ⟨⟨rfl, queue_capacity_bounds.1 fullQueue (("x").toList) 1 rfl⟩,
   ⟨rfl, queue_capacity_bounds.2.1 initialQueue rfl⟩⟩

/-- Claim C6: the circular buffer refines a FIFO list queue — a
successful enqueue appends to the abstract pending list and a successful
dequeue returns exactly its head and leaves its tail, so dequeues return
entries in enqueue order. -/
theorem queue_fifo_refinement (q : QueueState) (hwf : QueueWF q)
    (p : Path) (n : Nat) :
    (q.count < MAX_QUEUE_SIZE →
       (queueAdd q p n).2 = true ∧ QueueWF (queueAdd q p n).1 ∧
       absQueue (queueAdd q p n).1 = absQueue q ++ [⟨p.take 127, n⟩]) ∧
    (0 < q.count →
       (queueGet q).2 = (absQueue q).head? ∧ QueueWF (queueGet q).1 ∧
       absQueue (queueGet q).1 = (absQueue q).tail) :=
  ⟨fun h => queueAdd_abs hwf h p n, fun h => queueGet_abs hwf h⟩

/-- Witness for C6: an enqueue appends concretely, and enqueuing a, b, c
then dequeuing three times yields a, b, c. -/
theorem queue_fifo_refinement_witness :
    (QueueWF initialQueue ∧ initialQueue.count < MAX_QUEUE_SIZE ∧
      absQueue (queueAdd initialQueue (("a").toList) 1).1 =
        absQueue initialQueue ++ [⟨("a").toList, 1⟩]) ∧
    (dequeueN (enqueueAll initialQueue
        [(("a").toList, 1), (("b").toList, 2), (("c").toList, 3)]).1 3).2 =
      [some ⟨("a").toList, 1⟩, some ⟨("b").toList, 2⟩,
       some ⟨("c").toList, 3⟩] :=
  ⟨⟨by decide, by decide,
    ((queue_fifo_refinement initialQueue (by decide) (("a").toList) 1).1
      (by decide)).2.2⟩,
   by decide⟩

/-- Witness for C2 at the sample store and the watermark
`img:/2024/01/15/a.jpg`. -/
theorem getNewAlbumItems_spec_witness :
    ((("2024").toList).length = 4 ∧ (("01").toList).length = 2 ∧
      (("15").toList).length = 2) ∧
    (∃ items, getNewAlbumItems sampleStore
        (fullPath (("2024").toList) (("01").toList) (("15").toList)
          (("a.jpg").toList)) = Except.ok items ∧
      items.Sorted (fun a b : Path => a ≤ b) ∧
      ∀ p, p ∈ items ↔ ReachableWF sampleStore p ∧
        fullPath (("2024").toList) (("01").toList) (("15").toList)
          (("a.jpg").toList) < p) :=
  ⟨⟨by decide, by decide, by decide⟩,
   getNewAlbumItems_spec sampleStore _ _ _ _ (by decide) (by decide)
     (by decide)⟩

/-- Claim C4 (amended): whenever `getLastAlbumItem` succeeds its result
is the lexicographically greatest entry under well-formed year/month/day
directories; when it fails, the error names the first empty level along
the chain of per-level maxima (greatest year, its greatest month, its
greatest day) together with that level's parent path — which can happen
even though well-formed entries exist elsewhere.  `UniqueNames` states
that no directory lists two children with the same name, as holds for
any real directory listing. -/
theorem getLastAlbumItem_greedy_max (s : Store) (hu : UniqueNames s) :
    (∀ p, getLastAlbumItem s = Except.ok p →
        ReachableWF s p ∧ ∀ q, ReachableWF s q → q ≤ p) ∧
    (∀ e, getLastAlbumItem s = Except.error e →
      (e = ("No valid year directories in img:/").toList ∧
         ∀ yd ∈ s.years, ¬ wfName 4 yd.name) ∨
      (∃ yd, findMaxDir YearDir.name 4 s.years = some yd ∧
         e = ("No valid month directories in ").toList ++
           (ALBUM_PATH ++ yd.name) ∧
         ∀ md ∈ yd.months, ¬ wfName 2 md.name) ∨
      (∃ yd md, findMaxDir YearDir.name 4 s.years = some yd ∧
         findMaxDir MonthDir.name 2 yd.months = some md ∧
         e = ("No valid day directories in ").toList ++
           ((ALBUM_PATH ++ yd.name) ++ '/' :: md.name) ∧
         ∀ dd ∈ md.days, ¬ wfName 2 dd.name) ∨
      (∃ yd md dd, findMaxDir YearDir.name 4 s.years = some yd ∧
         findMaxDir MonthDir.name 2 yd.months = some md ∧
         findMaxDir DayDir.name 2 md.days = some dd ∧
         e = ("No files found in ").toList ++
           (((ALBUM_PATH ++ yd.name) ++ '/' :: md.name) ++
             '/' :: dd.name) ∧
         ∀ g ∈ dd.files, g = [])) :=
  ⟨fun _ hok => getLastAlbumItem_ok_max s hu hok,
   fun _ he => getLastAlbumItem_error_form s he⟩

/-- Witness for C4 at the sample store, whose newest entry is
`img:/2024/02/01/c.mp4`. -/
theorem getLastAlbumItem_greedy_max_witness :
    UniqueNames sampleStore ∧
    (ReachableWF sampleStore (("img:/2024/02/01/c.mp4").toList) ∧
      ∀ q, ReachableWF sampleStore q →
        q ≤ ("img:/2024/02/01/c.mp4").toList) :=
  ⟨by decide,
   (getLastAlbumItem_greedy_max sampleStore (by decide)).1
     (("img:/2024/02/01/c.mp4").toList) (by rfl)⟩

/-- Counterexample to C4 as stated: in `gapStore` the greatest year
directory (2025) is empty, so `getLastAlbumItem` fails even though a
well-formed entry exists under 2024 — it does not fail "only when no
such entry exists". -/
theorem getLastAlbumItem_not_total :
    getLastAlbumItem gapStore =
      Except.error (("No valid month directories in img:/2025").toList) ∧
    ReachableWF gapStore (("img:/2024/01/15/a.jpg").toList) := by
  constructor
  · rfl
  · decide

/-- Claim C7: the worker processes exactly the queued tasks (one report
per task, queue drained), every enabled destination is attempted for
every task regardless of the other destinations' outcomes, and the
overall "all uploads failed" log happens exactly when no enabled
destination succeeded. -/
theorem worker_fanout_independence (cfg : WorkerConfig)
    (dst : Destinations) (q : QueueState) (hwf : QueueWF q) :
    (uploadWorkerThread cfg dst q).1.length = q.count ∧
    (uploadWorkerThread cfg dst q).2.count = 0 ∧
    ∀ r ∈ (uploadWorkerThread cfg dst q).1,
      r.telegram.isSome = cfg.telegramEnabled ∧
      r.ntfy.isSome = cfg.ntfyEnabled ∧
      r.discord.isSome = cfg.discordEnabled ∧
      (r.loggedAllFailed = true ↔
        destSent r.telegram = false ∧ destSent r.ntfy = false ∧
          destSent r.discord = false) := by
  obtain ⟨h1, h2⟩ := uploadWorkerThread_abs cfg dst q hwf
  refine ⟨by rw [h1, List.length_map, absQueue_length], h2, ?_⟩
  intro r hr
  rw [h1] at hr
  obtain ⟨t, -, rfl⟩ := List.mem_map.mp hr
  obtain ⟨f1, f2, f3, f4, f5, -⟩ := processTask_fields cfg
    (dst.tg t.filePath t.fileSize) (dst.ntfy t.filePath t.fileSize)
    (dst.discord t.filePath t.fileSize) t.filePath
  exact ⟨f1, f2, f3, loggedAllFailed_iff _ f5 f4⟩

/-- Witness for C7: Telegram always fails and ntfy always succeeds on a
two-task queue — both tasks are processed and neither is logged as an
overall failure. -/
theorem worker_fanout_independence_witness :
    QueueWF twoTaskQueue ∧
    (uploadWorkerThread ⟨UploadMode_Compressed, true, true, false⟩
        ⟨fun _ _ _ _ => false, fun _ _ _ => true, fun _ _ _ => false⟩
        twoTaskQueue).1.length = twoTaskQueue.count ∧
    (uploadWorkerThread ⟨UploadMode_Compressed, true, true, false⟩
        ⟨fun _ _ _ _ => false, fun _ _ _ => true, fun _ _ _ => false⟩
        twoTaskQueue).1.map TaskReport.loggedAllFailed =
      [false, false] :=
  ⟨by decide,
   (worker_fanout_independence ⟨UploadMode_Compressed, true, true, false⟩
     ⟨fun _ _ _ _ => false, fun _ _ _ => true, fun _ _ _ => false⟩
     twoTaskQueue (by decide)).1,
   by decide⟩

/-- Claim C8: in `both` mode each outer retry iteration attempts the
compressed upload first and then the original regardless of the
compressed outcome; the iteration succeeds (ending the loop immediately,
with no further attempts) exactly when at least one of the two calls
succeeded, and on failure the loop continues with the next iteration. -/
theorem telegram_both_mode (send : Nat → Bool → Bool) (k retry : Nat) :
    telegramIterate send UploadMode_Both retry =
      ((send retry true || send retry false),
       [⟨true, send retry true⟩, ⟨false, send retry false⟩]) ∧
    ((send retry true || send retry false) = true →
       runRetryLoopFrom (telegramIterate send UploadMode_Both) (k + 1)
         retry =
         (true, [⟨true, send retry true⟩, ⟨false, send retry false⟩],
          if 0 < retry then [exponentialBackoffMs (retry - 1)] else [])) ∧
    ((send retry true || send retry false) = false →
       runRetryLoopFrom (telegramIterate send UploadMode_Both) (k + 1)
         retry =
         ((runRetryLoopFrom (telegramIterate send UploadMode_Both) k
            (retry + 1)).1,
          [⟨true, send retry true⟩, ⟨false, send retry false⟩] ++
            (runRetryLoopFrom (telegramIterate send UploadMode_Both) k
              (retry + 1)).2.1,
          (if 0 < retry then [exponentialBackoffMs (retry - 1)] else []) ++
            (runRetryLoopFrom (telegramIterate send UploadMode_Both) k
              (retry + 1)).2.2)) := by
  have hit : telegramIterate send UploadMode_Both retry =
      ((send retry true || send retry false),
       [⟨true, send retry true⟩, ⟨false, send retry false⟩]) := by
    unfold telegramIterate
    rw [if_neg (by decide), if_neg (by decide), if_pos rfl]
  refine ⟨hit, fun h => ?_, fun h => ?_⟩
  · rw [runRetryLoopFrom_succ_success k (by rw [hit]; exact h), hit]
  · rw [runRetryLoopFrom_succ_failure k (by rw [hit]; exact h), hit]

/-- Witness for C8: with a stub where only the compressed call succeeds,
a `both` iteration succeeds and the loop stops after one iteration. -/
theorem telegram_both_mode_witness :
    (((fun _ c : Bool => c) 0 true || (fun _ c : Bool => c) 0 false)
      = true) ∧
    runRetryLoopFrom (telegramIterate (fun _ c => c) UploadMode_Both) 3 0 =
      (true, [⟨true, true⟩, ⟨false, false⟩], []) := by
  refine ⟨by decide, ?_⟩
  exact (telegram_both_mode (fun _ c => c) 2 0).2.1 (by decide)

/-- Witness for C9 at a watermark of length 9 (shorter than
`img:/YYYY/MM/DD`). -/
theorem getNewAlbumItems_short_witness :
    ((("img:/2024").toList).take 5 = ALBUM_PATH ∧
      (("img:/2024").toList).length < 15) ∧
    getNewAlbumItems sampleStore (("img:/2024").toList) =
      Except.error INVALID_PATH_MSG :=
  ⟨⟨by decide, by decide⟩,
   getNewAlbumItems_short sampleStore (("img:/2024").toList) (by decide)
     (by decide)⟩

/-- Counterexample to C9 as stated: the empty watermark does not fail —
it is the cold-start case and succeeds, returning the newest item. -/
theorem empty_watermark_returns_items :
    getNewAlbumItems sampleStore [] =
      Except.ok [("img:/2024/02/01/c.mp4").toList] ∧
    ∀ e, getNewAlbumItems sampleStore [] ≠ Except.error e := by
  constructor
  · rfl
  · intro e he
    rw [show getNewAlbumItems sampleStore [] =
      Except.ok [("img:/2024/02/01/c.mp4").toList] from rfl] at he
    exact Except.noConfusion he

/-- Claim C10 (amended): for a path long enough to pass title-id
validation, a destination whose per-type flag forbids the file's type
reports success without touching the file, and a first-attempt success
means the worker's retry loop performs exactly one attempt with no
backoff. -/
theorem send_skip_disallowed (c : UploadConfig)
    (fopenOk netOk compression : Bool) (path : Path)
    (h36 : 36 ≤ path.length)
    (htg : (if isMovieBack path then c.telegramUploadMovies
            else c.telegramUploadScreenshots) = false)
    (hnt : (if isMovieBack path then c.ntfyUploadMovies
            else c.ntfyUploadScreenshots) = false)
    (hdc : (if isMovieBack path then c.discordUploadMovies
            else c.discordUploadScreenshots) = false) :
    sendFileToTelegram c fopenOk netOk path compression = ⟨true, false⟩ ∧
    sendFileToNtfy c fopenOk netOk path = ⟨true, false⟩ ∧
    sendFileToDiscord c fopenOk netOk path = ⟨true, false⟩ ∧
    ∀ k, runRetryLoopFrom (simpleIterate (fun _ => true)) (k + 1) 0 =
      (true, [true], []) := by
  refine ⟨sendFileToTelegram_skip (validateUploadFile_skip h36 htg),
    sendFileToNtfy_skip (validateUploadFile_skip h36 hnt),
    sendFileToDiscord_skip (validateUploadFile_skip h36 hdc),
    fun k => ?_⟩
  rw [runRetryLoopFrom_succ_success k (by rfl)]
  rfl

/-- A realistic movie path: long enough for validation, ending in
`.mp4`. -/
def longMoviePath : Path :=
  ("img:/2024/01/15/2024011512000000-0123456789ABCDEF0123456789ABCDEF.mp4").toList

/-- Witness for C10: all per-type movie flags disabled, a long movie
path — every sender reports success without touching the file. -/
theorem send_skip_disallowed_witness :
    (36 ≤ longMoviePath.length ∧
     (if isMovieBack longMoviePath then false else true) = false) ∧
    (sendFileToTelegram ⟨true, false, true, false, true, false,
        ("t").toList⟩ true true longMoviePath true = ⟨true, false⟩ ∧
     sendFileToNtfy ⟨true, false, true, false, true, false,
        ("t").toList⟩ true true longMoviePath = ⟨true, false⟩ ∧
     sendFileToDiscord ⟨true, false, true, false, true, false,
        ("t").toList⟩ true true longMoviePath = ⟨true, false⟩ ∧
     ∀ k, runRetryLoopFrom (simpleIterate (fun _ => true)) (k + 1) 0 =
       (true, [true], [])) :=
  ⟨⟨by decide, by decide⟩,
   send_skip_disallowed ⟨true, false, true, false, true, false,
     ("t").toList⟩ true true true longMoviePath (by decide) (by decide)
     (by decide) (by decide)⟩

/-- Counterexample to C10 as stated: a movie path shorter than the
36-character validation minimum with movie uploads disabled makes the
sender return failure (it never reaches the type check), not the claimed
success. -/
theorem send_disallowed_short_path_fails :
    isMovieBack (("img:/a.mp4").toList) = true ∧
    (("img:/a.mp4").toList).length < 36 ∧
    sendFileToTelegram ⟨true, false, true, false, true, false,
      ("t").toList⟩ true true (("img:/a.mp4").toList) true =
      ⟨false, false⟩ := by
  decide

end NX
